import Mathlib

/-!
# usvisa: the document parser and the cache policy

A shallow embedding of `usvisa/usvisa.go`.

* A Go `[]byte` or `string` is a `List Char`, one element standing for one byte.
* The Go standard library (`bytes.Index`, `strconv.ParseInt`, `regexp`) is
  modelled by small executable functions; `zlib`, the clock, the HTTP fetch
  and memcache are external collaborators and appear as parameters.
* Loops are written with a fuel argument so that they evaluate by
  computation; the lemmas named `*_fuel` show that the fuel handed out by the
  entry points is always enough.
-/

namespace Usvisa

/-- A byte sequence (`[]byte` or `string`), one list element per byte. -/
abbrev Bytes := List Char

/-! ## strconv.ParseInt (base 10, 64 bits) -/

/-- The value of a decimal digit byte, as `strconv.ParseUint` reads it in base 10. -/
def digitVal (c : Char) : Option Nat :=
  if 48 ≤ c.toNat ∧ c.toNat ≤ 57 then some (c.toNat - 48) else none

/-- The digit loop of `strconv.ParseUint`: `acc` is the value read so far; a byte
that is no decimal digit is a syntax error. -/
def parseDigits : Bytes → Nat → Option Nat
  | [], acc => some acc
  | c :: s, acc =>
    match digitVal c with
    | some d => parseDigits s (acc * 10 + d)
    | none => none

/-- Model of `strconv.ParseUint(s, 10, 64)`: `none` stands for a non-nil error (empty
input, a non-digit byte, or a value above `2^64 - 1`). -/
def ParseUint (s : Bytes) : Option Nat :=
  match s with
  | [] => none
  | _ =>
    match parseDigits s 0 with
    | some n => if n < 2 ^ 64 then some n else none
    | none => none

/-- Model of `strconv.ParseInt(s, 10, 64)`: an optional sign, then `ParseUint`; `none`
stands for a non-nil error (syntax or range). -/
def ParseInt (s : Bytes) : Option Int :=
  match s with
  | [] => none
  | c :: rest =>
    if c = '+' then
      match ParseUint rest with
      | some un => if un < 2 ^ 63 then some (un : Int) else none
      | none => none
    else if c = '-' then
      match ParseUint rest with
      | some un => if un ≤ 2 ^ 63 then some (-(un : Int)) else none
      | none => none
    else
      match ParseUint (c :: rest) with
      | some un => if un < 2 ^ 63 then some (un : Int) else none
      | none => none

/-- The test of line 105-106: `err == nil && v >= 20000000000 && v < 29000000000`. -/
def isCaseId (token : Bytes) : Bool :=
  match ParseInt token with
  | some v => decide (20000000000 ≤ v) && decide (v < 29000000000)
  | none => false

/-! ## BatchUpdate, BatchTable -/

/-- The Go struct `BatchUpdate`. -/
structure BatchUpdate where
  Status : Bytes
  Date : Bytes
deriving DecidableEq, Repr

/-- The Go type `BatchTable`, `map[string][]BatchUpdate`, as an association list with
one entry per key. -/
abbrev BatchTable := List (Bytes × List BatchUpdate)

/-- The map read `v, exists := table[id]`; `none` when the key is absent. -/
def tableGet : BatchTable → Bytes → Option (List BatchUpdate)
  | [], _ => none
  | (k, v) :: rest, id => if k = id then some v else tableGet rest id

/-- The map write `table[id] = v`. -/
def tableSet : BatchTable → Bytes → List BatchUpdate → BatchTable
  | [], id, v => [(id, v)]
  | (k, w) :: rest, id, v => if k = id then (k, v) :: rest else (k, w) :: tableSet rest id v

/-- Lines 107-111: create the entry of `id` when it does not exist, then append the
update to it. A read of a missing key gives the nil slice. -/
def addUpdate (table : BatchTable) (id : Bytes) (u : BatchUpdate) : BatchTable :=
  let table1 := if (tableGet table id).isNone then tableSet table id [] else table
  tableSet table1 id ((tableGet table1 id).getD [] ++ [u])

/-! ## The record-assembly loop of parse (lines 104-114) -/

/-- The loop `for i := 0; i < len(records)-2; i++` of parse, from the state `(i, table)`.
`len(records)-2` is a signed value, so the comparison is made in `Int`. An index
read outside `records` is a run-time panic, result `none`. The first argument
after `records` is the fuel. -/
def recordLoop (records : List Bytes) : Nat → Nat → BatchTable → Option BatchTable
  | 0, _, table => some table
  | fuel + 1, i, table =>
    if (i : Int) < (records.length : Int) - 2 then
      match records[i]? with
      | none => none
      | some id =>
        if isCaseId id then
          match records[i + 1]?, records[i + 2]? with
          | some status, some date =>
            recordLoop records fuel (i + 2 + 1) (addUpdate table id ⟨status, date⟩)
          | _, _ => none
        else recordLoop records fuel (i + 1) table
    else some table

/-- The whole loop of lines 104-114, started at `i = 0`. -/
def assemble (records : List Bytes) (table : BatchTable) : Option BatchTable :=
  recordLoop records records.length 0 table

/-- A record of the specification: caseId, status, date. -/
structure Record where
  caseId : Bytes
  status : Bytes
  date : Bytes
deriving DecidableEq, Repr

/-- The reference scan, in the words of the specification: from index `i`, while
`token[i+2]` exists, if `token[i]` qualifies as a caseId emit
`(token[i], token[i+1], token[i+2])` and advance by 3, otherwise advance by 1. -/
def referenceScan (tokens : List Bytes) (i : Nat) : List Record :=
  if h : i + 2 < tokens.length then
    if isCaseId tokens[i] then
      ⟨tokens[i], tokens[i + 1], tokens[i + 2]⟩ :: referenceScan tokens (i + 3)
    else referenceScan tokens (i + 1)
  else []
termination_by tokens.length - i

/-- Appending one record of the specification to the table under its caseId. -/
def mergeRecord (table : BatchTable) (r : Record) : BatchTable :=
  addUpdate table r.caseId ⟨r.status, r.date⟩

/-! ## The segment scan of parse (lines 72-83) -/

/-- The constant `StreamStartMarker`. -/
def StreamStartMarker : Bytes := "stream\x0D\x0A".toList

/-- The constant `StreamEndMarker`. -/
def StreamEndMarker : Bytes := "endstream\x0D\x0A".toList

/-- Model of `bytes.Index(s, sep)`: the index of the first occurrence of `sep` in `s`;
`none` stands for `-1`. -/
def Index : Bytes → Bytes → Option Nat
  | [], sep => if sep.isPrefixOf [] then some 0 else none
  | c :: s, sep =>
    if sep.isPrefixOf (c :: s) then some 0
    else
      match Index s sep with
      | some k => some (k + 1)
      | none => none

/-- The slice expression `s[lo:]`; `none` is the run-time panic "slice bounds out of
range". -/
def sliceFrom (s : Bytes) (lo : Nat) : Option Bytes :=
  if lo ≤ s.length then some (s.drop lo) else none

/-- The slice expression `s[0:hi]`; `none` is the run-time panic "slice bounds out of
range". -/
def sliceTo (s : Bytes) (hi : Nat) : Option Bytes :=
  if hi ≤ s.length then some (s.take hi) else none

/-- What one pass through lines 73-83 does. -/
inductive ScanStep where
  /-- A marker search returned -1: `break`. -/
  | stop
  /-- A slice expression was out of range. -/
  | panic
  /-- The segment `section` and the new value of `pdf`. -/
  | segment (sect : Bytes) (pdf : Bytes)
deriving DecidableEq, Repr

/-- Lines 73-83 of parse: find the start marker, cut `pdf` after it, find the start
marker again, take `section := pdf[0:end]` and cut `pdf` at
`end+len(StreamEndMarker)`. -/
def scanStep (pdf : Bytes) : ScanStep :=
  match Index pdf StreamStartMarker with
  | none => .stop
  | some beginIdx =>
    match sliceFrom pdf (beginIdx + StreamStartMarker.length) with
    | none => .panic
    | some pdf1 =>
      match Index pdf1 StreamStartMarker with
      | none => .stop
      | some endIdx =>
        match sliceTo pdf1 endIdx with
        | none => .panic
        | some sect =>
          match sliceFrom pdf1 (endIdx + StreamEndMarker.length) with
          | none => .panic
          | some pdf2 => .segment sect pdf2

/-! ## The two regular expressions (lines 35-38) and FindAllSubmatch -/

/-- A regular expression of the shape `pre ( .+? inner ) post`: three literals and one
capture group that starts with a lazy `.+?`. `dotNL` is the flag `s` (`.` matches a
line feed too). Both expressions of the program have this shape. Go matches rune
by rune; the literals of the program are ASCII and a byte that starts no valid
rune counts as one rune, so matching byte by byte finds the same matches. -/
structure LazyRE where
  pre : Bytes
  inner : Bytes
  post : Bytes
  dotNL : Bool
deriving DecidableEq, Repr

/-- The expression `BTETRE`. Its text is in a raw (back-quoted) Go string, so the
expression `\\r\\n` reads: an escaped backslash, `r`, an escaped backslash, `n`. -/
def BTETRE : LazyRE :=
  { pre := "BT\\r\\n".toList, inner := [], post := "ET\\r\\n".toList, dotNL := true }

/-- The expression `TextRE`. Its text is in a raw Go string: an escaped backslash, the
opening of group 1, the group `(.+?)`, an escaped backslash, the closing of group 1. -/
def TextRE : LazyRE :=
  { pre := "\\".toList, inner := "\\".toList, post := [], dotNL := false }

/-- The lazy `.+?` followed by the literal `close`, matched at the start of the input:
the text of `.+?` (the shortest possible, at least one byte) and what is left of
the input after `close`. -/
def lazyPlus (dotNL : Bool) (close : Bytes) : Bytes → Option (Bytes × Bytes)
  | [] => none
  | c :: s =>
    if dotNL || c != '\n' then
      if close.isPrefixOf s then some ([c], s.drop close.length)
      else
        match lazyPlus dotNL close s with
        | some (x, rest) => some (c :: x, rest)
        | none => none
    else none

/-- The match of `re` that starts at the first byte of `s`, if any: submatch 1 and
what is left of `s` after the match. -/
def matchAt (re : LazyRE) (s : Bytes) : Option (Bytes × Bytes) :=
  if re.pre.isPrefixOf s then
    match lazyPlus re.dotNL (re.inner ++ re.post) (s.drop re.pre.length) with
    | some (x, rest) => some (x ++ re.inner, rest)
    | none => none
  else none

/-- The successive leftmost matches of `re`, none overlapping: the list of their
submatch 1. The first argument is the fuel. -/
def findAll (re : LazyRE) : Nat → Bytes → List Bytes
  | 0, _ => []
  | _ + 1, [] => []
  | fuel + 1, c :: s =>
    match matchAt re (c :: s) with
    | some (g, rest) => g :: findAll re fuel rest
    | none => findAll re fuel s

/-- Model of `re.FindAllSubmatch(b, -1)`, keeping of each match its `group[1]`, the
only part the program reads. -/
def FindAllSubmatch (re : LazyRE) (b : Bytes) : List Bytes :=
  findAll re b.length b

/-- The package-level variables of lines 35-38. Go initialises them once, before any
request; the functions below read them, so they are passed explicitly. -/
structure Vars where
  BTETRE : LazyRE
  TextRE : LazyRE
deriving DecidableEq, Repr

/-- The values the program gives its package-level variables. -/
def vars : Vars := { BTETRE := BTETRE, TextRE := TextRE }

/-- Lines 98-102: the `group[1]` of every `TextRE` match in a text block, appended to
`lines` and joined with the empty separator. -/
def joinedLines (g : Vars) (block : Bytes) : Bytes :=
  ((FindAllSubmatch g.TextRE block).foldl (fun lines m => lines ++ [m]) []).flatten

/-- Lines 96-103: the slice `records`, one `append` per `BTETRE` match. -/
def textRecords (g : Vars) (unzipped : Bytes) : List Bytes :=
  (FindAllSubmatch g.BTETRE unzipped).foldl (fun records m => records ++ [joinedLines g m]) []

/-! ## parse (lines 70-117) -/

/-- The two ways the zlib reader fails: in `zlib.NewReader` or in `ioutil.ReadAll`. -/
inductive ZlibError where
  | NewReader
  | ReadAll
deriving DecidableEq, Repr

/-- The errors the program makes with `errors.New`. -/
inductive Error where
  | GETFailed
  | ReadAllFailed
  | UnzipInitializationFailed
  | UnzipFailed
  | UnableToReadARecord
deriving DecidableEq, Repr

/-- The loop of parse. `unzip` stands for `zlib.NewReader` followed by
`ioutil.ReadAll`. The result `none` is a run-time panic; `some (table, err)` is the
pair parse returns. The first argument after `unzip` is the fuel. -/
def parseLoop (g : Vars) (unzip : Bytes → Except ZlibError Bytes) :
    Nat → Bytes → BatchTable → Option (BatchTable × Option Error)
  | 0, _, table => some (table, none)
  | fuel + 1, pdf, table =>
    match scanStep pdf with
    | .stop => some (table, none)
    | .panic => none
    | .segment sect pdf2 =>
      match unzip sect with
      | .error .NewReader => some (table, some .UnzipInitializationFailed)
      | .error .ReadAll => some (table, some .UnzipFailed)
      | .ok unzipped =>
        match assemble (textRecords g unzipped) table with
        | none => none
        | some table2 => parseLoop g unzip fuel pdf2 table2

/-- The function `parse`, started on the empty table. -/
def parse (g : Vars) (unzip : Bytes → Except ZlibError Bytes) (pdf : Bytes) :
    Option (BatchTable × Option Error) :=
  parseLoop g unzip pdf.length pdf []

/-! ## The cached table (lines 119-149, 218-251) -/

/-- The Go struct `Table`: the cached snapshot. -/
structure Table where
  UpdateTime : Bytes
  Batches : BatchTable
deriving DecidableEq, Repr

/-- The zero `time.Time` (1 January of year 1, UTC), which `time.Parse` returns with
an error. An instant is an `Int`: nanoseconds since the Unix epoch. -/
def zeroTime : Int := -62135596800 * 1000000000

/-- One hour, the value of `time.ParseDuration("1h")`, in nanoseconds. -/
def gap : Int := 3600 * 1000000000

/-- The parts of the Go standard library that are not modelled: `unzip` is
`zlib.NewReader` with `ioutil.ReadAll`, `timeParse` is `time.Parse(time.RFC3339, _)`
(`none` for an error), `timeFormat` is `t.UTC().Format(time.RFC3339)`. -/
structure Lib where
  unzip : Bytes → Except ZlibError Bytes
  timeParse : Bytes → Option Int
  timeFormat : Int → Bytes

/-- What a GET of the document gives: `client.Get` fails, `ioutil.ReadAll` of the body
fails, or the contents arrive. -/
inductive Response where
  | getFailed
  | readFailed
  | contents (body : Bytes)
deriving DecidableEq, Repr

/-- The state of the external collaborators around one request.
`item` is what memcache holds under the key "table"; `getFails` and `setFails` say
that memcache answers a read or a write with an error other than a miss;
`clock n` is the n-th reading of `time.Now()` and `ticks` counts the readings made;
`responses n` is the outcome of the n-th GET and `gets` counts the GETs made. -/
structure World where
  item : Option Table
  getFails : Bool
  setFails : Bool
  clock : Nat → Int
  ticks : Nat
  responses : Nat → Response
  gets : Nat

/-- The function `LoadBatchTable`: one GET, then parse. A nil map is the empty table. -/
def LoadBatchTable (g : Vars) (lib : Lib) (w : World) :
    Option ((BatchTable × Option Error) × World) :=
  let w1 := { w with gets := w.gets + 1 }
  match w.responses w.gets with
  | .getFailed => some (([], some .GETFailed), w1)
  | .readFailed => some (([], some .ReadAllFailed), w1)
  | .contents body =>
    match parse g lib.unzip body with
    | none => none
    | some r => some (r, w1)

/-- The function `StoreTable`: a failed write is logged and nothing else. -/
def StoreTable (w : World) (table : Table) : World :=
  if w.setFails then w else { w with item := some table }

/-- The function `RefreshTable`: the error of `LoadBatchTable` is discarded
(`table.Batches, _ = ...`), the clock is read, the table is stored and returned. -/
def RefreshTable (g : Vars) (lib : Lib) (w : World) : Option (Table × World) :=
  match LoadBatchTable g lib w with
  | none => none
  | some ((batches, _), w1) =>
    let table : Table :=
      { Batches := batches, UpdateTime := lib.timeFormat (w1.clock w1.ticks) }
    let w2 := { w1 with ticks := w1.ticks + 1 }
    some (table, StoreTable w2 table)

/-- The function `ReadTable`. Outer `none`: a panic; inner `none`: the return
`nil, error`. On a miss without reload the zero `Table` is returned. -/
def ReadTable (g : Vars) (lib : Lib) (w : World) (reload : Bool) :
    Option (Option Table × World) :=
  if w.getFails then some (none, w)
  else
    match w.item with
    | some table => some (some table, w)
    | none =>
      if reload then
        match RefreshTable g lib w with
        | none => none
        | some (table, w1) => some (some table, w1)
      else some (some { UpdateTime := [], Batches := [] }, w)

/-- The function `GetBatch`. Outer `none`: a panic; inner `none`: the return `nil`. -/
def GetBatch (g : Vars) (lib : Lib) (w : World) (id : Bytes) :
    Option (Option (List BatchUpdate) × World) :=
  match ReadTable g lib w true with
  | none => none
  | some (none, w1) => some (none, w1)
  | some (some table, w1) =>
    let last := (lib.timeParse table.UpdateTime).getD zeroTime
    let now := w1.clock w1.ticks
    let w2 := { w1 with ticks := w1.ticks + 1 }
    let check := last + gap
    if check < now then
      match RefreshTable g lib w2 with
      | none => none
      | some (table2, w3) => some (tableGet table2.Batches id, w3)
    else some (tableGet table.Batches id, w2)

/-! ## The pipeline in the words of the specification -/

/-- The segments the scan of lines 72-83 discovers one after the other, and whether
the scan ends in a panic. The first argument is the fuel. -/
def scanAll : Nat → Bytes → List Bytes × Bool
  | 0, _ => ([], false)
  | fuel + 1, pdf =>
    match scanStep pdf with
    | .stop => ([], false)
    | .panic => ([], true)
    | .segment sect pdf2 => (sect :: (scanAll fuel pdf2).1, (scanAll fuel pdf2).2)

/-- The segments of a document, in discovery order. -/
def segments (pdf : Bytes) : List Bytes :=
  (scanAll pdf.length pdf).1

/-- The records that record assembly emits for one segment: the reference scan of the
tokens of its content stream (none when the segment does not inflate). -/
def segmentRecords (g : Vars) (unzip : Bytes → Except ZlibError Bytes) (sect : Bytes) :
    List Record :=
  match unzip sect with
  | .ok unzipped => referenceScan (textRecords g unzipped) 0
  | .error _ => []

/-- The records emitted for a list of segments taken in order, up to the first segment
that does not inflate. -/
def emitted (g : Vars) (unzip : Bytes → Except ZlibError Bytes) : List Bytes → List Record
  | [] => []
  | sect :: rest =>
    match unzip sect with
    | .ok unzipped => referenceScan (textRecords g unzipped) 0 ++ emitted g unzip rest
    | .error _ => []

/-- The (status, date) pairs of the records of `rs` that carry the caseId `id`. -/
def updatesFor (id : Bytes) (rs : List Record) : List BatchUpdate :=
  (rs.filter (fun r => decide (r.caseId = id))).map (fun r => ⟨r.status, r.date⟩)

/-- The result of parse in terms of the segments: merge the reference records of each
segment in turn, stop with the error of the first segment that does not inflate,
and panic at the end when the scan does. -/
def mergeSegments (g : Vars) (unzip : Bytes → Except ZlibError Bytes) :
    List Bytes → Bool → BatchTable → Option (BatchTable × Option Error)
  | [], panics, table => if panics then none else some (table, none)
  | sect :: rest, panics, table =>
    match unzip sect with
    | .error .NewReader => some (table, some .UnzipInitializationFailed)
    | .error .ReadAll => some (table, some .UnzipFailed)
    | .ok unzipped =>
      mergeSegments g unzip rest panics
        ((referenceScan (textRecords g unzipped) 0).foldl mergeRecord table)

/-! ## Concrete inputs used in the examples -/

/-- Other values for the package-level variables, those the specification describes:
a text block lies between `BT CR LF` and `ET CR LF`, a string literal between an
opening and a closing parenthesis, and group 1 is the text in between. -/
def specVars : Vars :=
  { BTETRE := { pre := "BT\x0D\x0A".toList, inner := [], post := "ET\x0D\x0A".toList,
                dotNL := true },
    TextRE := { pre := "(".toList, inner := [], post := ")".toList, dotNL := false } }

/-- A stand-in for zlib on data that is stored as it is: every segment inflates to
itself. -/
def storedUnzip : Bytes → Except ZlibError Bytes :=
  fun sect => .ok sect

/-- A stand-in for zlib that accepts only segments that start with the byte `B`. -/
def pickyUnzip : Bytes → Except ZlibError Bytes :=
  fun sect => if sect.head? = some 'B' then .ok sect else .error .NewReader

/-- A document with two streams, each with three text blocks, both for the caseId
20000000001. -/
def twoSegmentPdf : Bytes :=
  ("%PDF-1.4\x0D\x0Astream\x0D\x0A"
    ++ "BT\x0D\x0A(20000000001)ET\x0D\x0ABT\x0D\x0A(Approved)ET\x0D\x0ABT\x0D\x0A(2023-01-05)ET\x0D\x0A"
    ++ "endstream\x0D\x0Aendobj\x0D\x0Astream\x0D\x0A"
    ++ "BT\x0D\x0A(20000000001)ET\x0D\x0ABT\x0D\x0A(Issued)ET\x0D\x0ABT\x0D\x0A(2023-02-07)ET\x0D\x0A"
    ++ "endstream\x0D\x0Aendobj\x0D\x0A").toList

/-- A document whose first stream holds one record and whose second stream is not
accepted by `pickyUnzip`. -/
def brokenSecondPdf : Bytes :=
  ("stream\x0D\x0A"
    ++ "BT\x0D\x0A(20000000001)ET\x0D\x0ABT\x0D\x0A(Approved)ET\x0D\x0ABT\x0D\x0A(2023-01-05)ET\x0D\x0A"
    ++ "endstream\x0D\x0Aendobj\x0D\x0Astream\x0D\x0A"
    ++ "garbage"
    ++ "endstream\x0D\x0Aendobj\x0D\x0A").toList

/-- A stand-in for the time library: an instant is written as its whole seconds
since the epoch, in decimal. -/
def demoLib : Lib :=
  { unzip := pickyUnzip,
    timeParse := fun text =>
      match ParseInt text with
      | some seconds => some (seconds * 1000000000)
      | none => none,
    timeFormat := fun t => (toString (t / 1000000000)).toList }

/-- A snapshot made at second 1700000000 with one entry. -/
def demoSnapshot : Table :=
  { UpdateTime := "1700000000".toList,
    Batches := [("20000000001".toList, [⟨"Approved".toList, "2023-01-05".toList⟩])] }

/-- A world that holds `demoSnapshot`, whose clock reads `seconds` after the
snapshot's time, and where every GET answers `response`. -/
def demoWorld (seconds : Int) (response : Response) : World :=
  { item := some demoSnapshot,
    getFails := false,
    setFails := false,
    clock := fun _ => (1700000000 + seconds) * 1000000000,
    ticks := 0,
    responses := fun _ => response,
    gets := 0 }

/-! ## The caseId test -/

theorem isCaseId_iff (token : Bytes) :
    isCaseId token = true ↔
      ∃ v : Int, ParseInt token = some v ∧ 20000000000 ≤ v ∧ v < 29000000000 := by
  unfold isCaseId
  cases h : ParseInt token with
  | none => simp
  | some v => simp

theorem recordLoop_eq_referenceScan (records : List Bytes) :
    ∀ (fuel i : Nat) (table : BatchTable), records.length ≤ fuel + i →
      recordLoop records fuel i table
        = some ((referenceScan records i).foldl mergeRecord table) := by
  intro fuel
  induction fuel with
  | zero =>
    intro i table h
    rw [referenceScan]
    have : ¬ (i + 2 < records.length) := by omega
    simp [recordLoop, this]
  | succ n ih =>
    intro i table h
    rw [referenceScan]
    by_cases hlt : i + 2 < records.length
    · have h0 : i < records.length := by omega
      have h1 : i + 1 < records.length := by omega
      have hint : (i : Int) < (records.length : Int) - 2 := by omega
      simp only [recordLoop, hint, if_true, List.getElem?_eq_getElem h0,
        List.getElem?_eq_getElem h1, List.getElem?_eq_getElem hlt, dif_pos hlt]
      by_cases hc : isCaseId records[i] = true
      · simp only [hc, if_true, List.foldl_cons]
        rw [ih (i + 2 + 1) _ (by omega)]
        rfl
      · simp only [hc, if_false, Bool.false_eq_true]
        rw [ih (i + 1) _ (by omega)]
    · have hint : ¬ ((i : Int) < (records.length : Int) - 2) := by omega
      simp [recordLoop, hint, hlt]


/-! ## The table -/

theorem tableGet_tableSet (t : BatchTable) (k id : Bytes) (v : List BatchUpdate) :
    tableGet (tableSet t k v) id = if k = id then some v else tableGet t id := by
  induction t with
  | nil => simp [tableSet, tableGet]
  | cons p rest ih =>
    obtain ⟨k0, v0⟩ := p
    by_cases h0 : k0 = k
    · subst h0
      by_cases h1 : k0 = id <;> simp [tableSet, tableGet, h1]
    · by_cases h1 : k0 = id
      · subst h1
        have : ¬ k = k0 := fun h => h0 h.symm
        simp [tableSet, tableGet, h0, this]
      · simp [tableSet, tableGet, h0, h1, ih]

theorem tableSet_tableSet (t : BatchTable) (k : Bytes) (a b : List BatchUpdate) :
    tableSet (tableSet t k a) k b = tableSet t k b := by
  induction t with
  | nil => simp [tableSet]
  | cons p rest ih =>
    obtain ⟨k0, v0⟩ := p
    by_cases h0 : k0 = k
    · simp [tableSet, h0]
    · simp [tableSet, h0, ih]

/-- Lines 107-111 amount to one map write. -/
theorem addUpdate_eq (t : BatchTable) (k : Bytes) (u : BatchUpdate) :
    addUpdate t k u = tableSet t k ((tableGet t k).getD [] ++ [u]) := by
  unfold addUpdate
  cases h : tableGet t k with
  | none => simp [tableSet_tableSet, tableGet_tableSet]
  | some v => simp [h]

theorem tableGet_addUpdate (t : BatchTable) (k id : Bytes) (u : BatchUpdate) :
    tableGet (addUpdate t k u) id
      = if k = id then some ((tableGet t k).getD [] ++ [u]) else tableGet t id := by
  rw [addUpdate_eq, tableGet_tableSet]

theorem mem_tableSet (t : BatchTable) (k : Bytes) (v : List BatchUpdate)
    (p : Bytes × List BatchUpdate) (hp : p ∈ tableSet t k v) : p ∈ t ∨ p = (k, v) := by
  induction t with
  | nil => simpa [tableSet] using hp
  | cons q rest ih =>
    obtain ⟨k0, v0⟩ := q
    by_cases h0 : k0 = k
    · subst h0
      simp only [tableSet, if_true, List.mem_cons] at hp
      rcases hp with hp | hp
      · exact Or.inr hp
      · exact Or.inl (List.mem_cons_of_mem _ hp)
    · simp only [tableSet, h0, if_false, List.mem_cons] at hp
      rcases hp with hp | hp
      · exact Or.inl (by simp [hp])
      · rcases ih hp with h | h
        · exact Or.inl (List.mem_cons_of_mem _ h)
        · exact Or.inr h

theorem mem_addUpdate (t : BatchTable) (k : Bytes) (u : BatchUpdate)
    (p : Bytes × List BatchUpdate) (hp : p ∈ addUpdate t k u) :
    p ∈ t ∨ (p.1 = k ∧ p.2 ≠ []) := by
  rw [addUpdate_eq] at hp
  rcases mem_tableSet _ _ _ _ hp with h | h
  · exact Or.inl h
  · refine Or.inr ?_
    subst h
    simp

/-- The entry of `id` after a run of records has been merged: what was there, then the
updates of the records that carry `id`, in their order. -/
theorem tableGet_foldl_mergeRecord (rs : List Record) :
    ∀ (t : BatchTable) (id : Bytes),
      (tableGet (rs.foldl mergeRecord t) id).getD []
          = (tableGet t id).getD [] ++ updatesFor id rs
        ∧ (tableGet (rs.foldl mergeRecord t) id = none
            ↔ tableGet t id = none ∧ updatesFor id rs = []) := by
  induction rs with
  | nil => intro t id; simp [updatesFor]
  | cons r rest ih =>
    intro t id
    obtain ⟨h1, h2⟩ := ih (mergeRecord t r) id
    simp only [List.foldl_cons]
    rw [h1, h2]
    unfold mergeRecord
    rw [tableGet_addUpdate]
    by_cases hk : r.caseId = id
    · subst hk
      simp [updatesFor]
    · simp [updatesFor, hk]

/-- Every entry that merging adds has the caseId of a merged record as its key and a
non-empty sequence. -/
theorem mem_foldl_mergeRecord (rs : List Record) :
    ∀ (t : BatchTable) (p : Bytes × List BatchUpdate), p ∈ rs.foldl mergeRecord t →
      p ∈ t ∨ ((∃ r ∈ rs, r.caseId = p.1) ∧ p.2 ≠ []) := by
  induction rs with
  | nil => intro t p hp; exact Or.inl hp
  | cons r rest ih =>
    intro t p hp
    simp only [List.foldl_cons] at hp
    rcases ih _ p hp with h | ⟨⟨r2, hr2, hk⟩, hne⟩
    · rcases mem_addUpdate _ _ _ _ h with h3 | ⟨h3, h4⟩
      · exact Or.inl h3
      · exact Or.inr ⟨⟨r, List.mem_cons_self _ _, h3.symm⟩, h4⟩
    · exact Or.inr ⟨⟨r2, List.mem_cons_of_mem _ hr2, hk⟩, hne⟩

/-! ## The reference scan -/

theorem referenceScan_isCaseId (tokens : List Bytes) :
    ∀ (n i : Nat), tokens.length ≤ n + i → ∀ r ∈ referenceScan tokens i,
      isCaseId r.caseId = true := by
  intro n
  induction n with
  | zero =>
    intro i h r hr
    rw [referenceScan] at hr
    have : ¬ (i + 2 < tokens.length) := by omega
    simp [this] at hr
  | succ n ih =>
    intro i h r hr
    rw [referenceScan] at hr
    by_cases hlt : i + 2 < tokens.length
    · simp only [dif_pos hlt] at hr
      by_cases hc : isCaseId tokens[i] = true
      · simp only [hc, if_true, List.mem_cons] at hr
        rcases hr with hr | hr
        · subst hr; exact hc
        · exact ih (i + 3) (by omega) r hr
      · simp only [hc, if_false, Bool.false_eq_true] at hr
        exact ih (i + 1) (by omega) r hr
    · simp [hlt] at hr

/-! ## The segment scan and parse -/

theorem scanStep_length (pdf sect pdf2 : Bytes) (h : scanStep pdf = .segment sect pdf2) :
    pdf2.length < pdf.length := by
  unfold scanStep at h
  split at h
  · cases h
  · rename_i beginIdx _
    unfold sliceFrom sliceTo at h
    split at h
    · cases h
    · rename_i pdf1 h1
      split at h1
      · cases h1
        split at h
        · cases h
        · rename_i endIdx _
          split at h
          · cases h
          · split at h
            · cases h
            · rename_i sect1 hs pdf3 h3
              split at h3
              · cases h3
                cases h
                simp only [List.length_drop, StreamEndMarker, StreamStartMarker] at *
                simp at *
                omega
              · cases h3
      · cases h1

theorem scanStep_nil : scanStep [] = .stop := by decide

theorem recordLoop_assemble (records : List Bytes) (table : BatchTable) :
    assemble records table = some ((referenceScan records 0).foldl mergeRecord table) :=
  recordLoop_eq_referenceScan records records.length 0 table (by omega)

theorem parseLoop_succ (g : Vars) (unzip : Bytes → Except ZlibError Bytes) (fuel : Nat)
    (pdf : Bytes) (table : BatchTable) :
    parseLoop g unzip (fuel + 1) pdf table
      = match scanStep pdf with
        | .stop => some (table, none)
        | .panic => none
        | .segment sect pdf2 =>
          match unzip sect with
          | .error .NewReader => some (table, some .UnzipInitializationFailed)
          | .error .ReadAll => some (table, some .UnzipFailed)
          | .ok unzipped =>
            match assemble (textRecords g unzipped) table with
            | none => none
            | some table2 => parseLoop g unzip fuel pdf2 table2 := rfl

/-- Any fuel that is at least the length of `pdf` gives the same result: the loop of
parse never runs out of the fuel `parse` hands it. -/
theorem parseLoop_fuel (g : Vars) (unzip : Bytes → Except ZlibError Bytes) :
    ∀ (n m : Nat) (pdf : Bytes) (table : BatchTable), pdf.length ≤ n → pdf.length ≤ m →
      parseLoop g unzip n pdf table = parseLoop g unzip m pdf table := by
  intro n
  induction n with
  | zero =>
    intro m pdf table hn hm
    have : pdf = [] := List.length_eq_zero.mp (by omega)
    subst this
    cases m with
    | zero => rfl
    | succ m => simp [parseLoop, scanStep_nil]
  | succ n ih =>
    intro m pdf table hn hm
    cases m with
    | zero =>
      have : pdf = [] := List.length_eq_zero.mp (by omega)
      subst this
      simp [parseLoop, scanStep_nil]
    | succ m =>
      simp only [parseLoop]
      cases hs : scanStep pdf with
      | stop => rfl
      | panic => rfl
      | segment sect pdf2 =>
        have hl := scanStep_length pdf sect pdf2 hs
        simp only
        cases unzip sect with
        | error e => cases e <;> rfl
        | ok unzipped =>
          simp only
          cases assemble (textRecords g unzipped) table with
          | none => rfl
          | some table2 => exact ih m pdf2 table2 (by omega) (by omega)

theorem scanAll_fuel :
    ∀ (n m : Nat) (pdf : Bytes), pdf.length ≤ n → pdf.length ≤ m →
      scanAll n pdf = scanAll m pdf := by
  intro n
  induction n with
  | zero =>
    intro m pdf hn hm
    have : pdf = [] := List.length_eq_zero.mp (by omega)
    subst this
    cases m with
    | zero => rfl
    | succ m => simp [scanAll, scanStep_nil]
  | succ n ih =>
    intro m pdf hn hm
    cases m with
    | zero =>
      have : pdf = [] := List.length_eq_zero.mp (by omega)
      subst this
      simp [scanAll, scanStep_nil]
    | succ m =>
      simp only [scanAll]
      cases hs : scanStep pdf with
      | stop => rfl
      | panic => rfl
      | segment sect pdf2 =>
        have hl := scanStep_length pdf sect pdf2 hs
        simp only
        rw [ih m pdf2 (by omega) (by omega)]

/-- The loop of parse computes what the specification's pipeline computes on the
segments the scan discovers. -/
theorem parseLoop_eq_mergeSegments (g : Vars) (unzip : Bytes → Except ZlibError Bytes) :
    ∀ (fuel : Nat) (pdf : Bytes) (table : BatchTable),
      parseLoop g unzip fuel pdf table
        = mergeSegments g unzip (scanAll fuel pdf).1 (scanAll fuel pdf).2 table := by
  intro fuel
  induction fuel with
  | zero => intro pdf table; rfl
  | succ n ih =>
    intro pdf table
    simp only [parseLoop, scanAll]
    cases hs : scanStep pdf with
    | stop => rfl
    | panic => rfl
    | segment sect pdf2 =>
      simp only [mergeSegments]
      cases hu : unzip sect with
      | error e => cases e <;> rfl
      | ok unzipped =>
        simp only [recordLoop_assemble]
        exact ih pdf2 _

theorem parse_eq_mergeSegments (g : Vars) (unzip : Bytes → Except ZlibError Bytes)
    (pdf : Bytes) :
    parse g unzip pdf
      = mergeSegments g unzip (segments pdf) (scanAll pdf.length pdf).2 [] :=
  parseLoop_eq_mergeSegments g unzip pdf.length pdf []

/-- Whatever parse returns, the table holds the records emitted up to the point where
it stopped. -/
theorem mergeSegments_table (g : Vars) (unzip : Bytes → Except ZlibError Bytes) :
    ∀ (segs : List Bytes) (panics : Bool) (table t : BatchTable) (e : Option Error),
      mergeSegments g unzip segs panics table = some (t, e) →
        t = (emitted g unzip segs).foldl mergeRecord table := by
  intro segs
  induction segs with
  | nil =>
    intro panics table t e h
    cases panics <;> simp [mergeSegments, emitted] at h ⊢
    exact h.1.symm
  | cons sect rest ih =>
    intro panics table t e h
    simp only [mergeSegments, emitted] at h ⊢
    cases hu : unzip sect with
    | error z =>
      rw [hu] at h
      cases z <;> simp at h ⊢ <;> exact h.1.symm
    | ok unzipped =>
      rw [hu] at h
      simp only [List.foldl_append]
      exact ih panics _ t e h

/-- When parse returns without an error, every segment inflated and the emitted
records are those of all the segments, in discovery order. -/
theorem mergeSegments_ok (g : Vars) (unzip : Bytes → Except ZlibError Bytes) :
    ∀ (segs : List Bytes) (panics : Bool) (table t : BatchTable),
      mergeSegments g unzip segs panics table = some (t, none) →
        emitted g unzip segs = (segs.map (segmentRecords g unzip)).flatten := by
  intro segs
  induction segs with
  | nil => intro panics table t h; simp [emitted]
  | cons sect rest ih =>
    intro panics table t h
    simp only [mergeSegments] at h
    simp only [emitted, segmentRecords, List.map_cons, List.flatten_cons]
    cases hu : unzip sect with
    | error z =>
      rw [hu] at h
      cases z <;> simp at h
    | ok unzipped =>
      rw [hu] at h
      simp only
      rw [ih panics _ t h]

/-! ## The claims about record assembly -/

theorem recordLoop_exit (records : List Bytes) (fuel i : Nat) (table : BatchTable)
    (h : records.length ≤ i + 2) : recordLoop records fuel i table = some table := by
  cases fuel with
  | zero => rfl
  | succ n =>
    have hint : ¬ ((i : Int) < (records.length : Int) - 2) := by omega
    simp [recordLoop, hint]

/-- C1: at a scan position of the record-assembly loop (an index `i` with `i+2` inside
the sequence) the token is taken as a caseId, and a record is added for it, exactly
when `strconv.ParseInt` returns a value `v` with `20000000000 <= v < 29000000000`;
"19999999999" and "29000000000" are rejected, "20000000000" and "28999999999" are
accepted, and a token that does not parse is rejected. -/
theorem C1_caseId_range :
    (∀ token : Bytes, isCaseId token = true ↔
        ∃ v : Int, ParseInt token = some v ∧ 20000000000 ≤ v ∧ v < 29000000000)
    ∧ (∀ (records : List Bytes) (fuel i : Nat) (table : BatchTable) (id status date : Bytes),
        records[i]? = some id → records[i + 1]? = some status →
        records[i + 2]? = some date →
          ((∃ v : Int, ParseInt id = some v ∧ 20000000000 ≤ v ∧ v < 29000000000) →
            recordLoop records (fuel + 1) i table
              = recordLoop records fuel (i + 3) (addUpdate table id ⟨status, date⟩))
          ∧ ((¬ ∃ v : Int, ParseInt id = some v ∧ 20000000000 ≤ v ∧ v < 29000000000) →
            recordLoop records (fuel + 1) i table = recordLoop records fuel (i + 1) table))
    ∧ isCaseId "19999999999".toList = false
    ∧ isCaseId "29000000000".toList = false
    ∧ isCaseId "20000000000".toList = true
    ∧ isCaseId "28999999999".toList = true
    ∧ (∀ token : Bytes, ParseInt token = none → isCaseId token = false) := by
  refine ⟨isCaseId_iff, ?_, by decide, by decide, by decide, by decide, ?_⟩
  · intro records fuel i table id status date h0 h1 h2
    have hlen : i + 2 < records.length := by
      rcases Nat.lt_or_ge (i + 2) records.length with h | h
      · exact h
      · rw [List.getElem?_eq_none h] at h2; cases h2
    have hint : (i : Int) < (records.length : Int) - 2 := by omega
    constructor
    · intro hv
      have hc := (isCaseId_iff id).mpr hv
      simp [recordLoop, hint, h0, h1, h2, hc]
    · intro hv
      have hc : isCaseId id = false := by
        cases hb : isCaseId id with
        | false => rfl
        | true => exact absurd ((isCaseId_iff id).mp hb) hv
      simp [recordLoop, hint, h0, hc]
  · intro token h
    simp [isCaseId, h]

/-- C2: for every token sequence and every table, the record-assembly loop of parse
adds to the table exactly the records of the reference scan (from `i = 0`, while
`token[i+2]` exists: a caseId at `i` emits `(token[i], token[i+1], token[i+2])` and
advances by 3, anything else advances by 1), in the order of the scan. A token
consumed as status or date is not tested: of three caseId-like tokens in a row only
the first opens a record. The sequence `["20000000001","Approved","2023-01-05"]`
yields exactly one record. -/
theorem C2_assemble_eq_referenceScan :
    (∀ (records : List Bytes) (table : BatchTable),
        assemble records table = some ((referenceScan records 0).foldl mergeRecord table))
    ∧ referenceScan ["20000000001".toList, "Approved".toList, "2023-01-05".toList] 0
        = [⟨"20000000001".toList, "Approved".toList, "2023-01-05".toList⟩]
    ∧ assemble ["20000000001".toList, "Approved".toList, "2023-01-05".toList] []
        = some [("20000000001".toList, [⟨"Approved".toList, "2023-01-05".toList⟩])]
    ∧ assemble ["20000000001".toList, "20000000002".toList, "20000000003".toList,
          "20000000004".toList, "x".toList, "y".toList] []
        = some [("20000000001".toList, [⟨"20000000002".toList, "20000000003".toList⟩]),
                ("20000000004".toList, [⟨"x".toList, "y".toList⟩])] := by
  refine ⟨recordLoop_assemble, ?_, by decide, by decide⟩
  have h3 : isCaseId "20000000001".toList = true := by decide
  rw [referenceScan]
  simp only [List.length_cons, List.length_nil]
  rw [dif_pos (by decide)]
  simp only [List.getElem_cons_zero, h3, if_true]
  rw [referenceScan]
  simp

/-- C3: for every token sequence, the empty one and those of length 1 or 2 included,
the record-assembly loop never reads an index outside the sequence (the model's
result is never the panic `none`); at a position with fewer than 2 tokens after
it the loop stops and leaves the table as it is, whatever the token; a sequence
of fewer than 3 tokens adds nothing, and neither does a caseId that is the last
token but one. -/
theorem C3_no_read_past_end (records : List Bytes) (table : BatchTable) :
    (∃ t, assemble records table = some t)
    ∧ (∀ (fuel i : Nat) (t : BatchTable), records.length ≤ i + 2 →
        recordLoop records fuel i t = some t)
    ∧ (records.length ≤ 2 → assemble records table = some table)
    ∧ assemble ["x".toList, "y".toList, "20000000001".toList, "Approved".toList] table
        = some table
    ∧ assemble ["20000000001".toList, "Approved".toList] table = some table := by
  refine ⟨⟨_, recordLoop_assemble records table⟩, ?_, ?_, ?_, ?_⟩
  · intro fuel i t h
    exact recordLoop_exit records fuel i t h
  · intro h
    exact recordLoop_exit records records.length 0 table (by omega)
  · have hx : isCaseId ['x'] = false := by decide
    have hy : isCaseId ['y'] = false := by decide
    simp [assemble, recordLoop, hx, hy]
  · simp [assemble, recordLoop]

/-! ## The claims about the merged table -/

theorem updatesFor_append (id : Bytes) (a b : List Record) :
    updatesFor id (a ++ b) = updatesFor id a ++ updatesFor id b := by
  simp [updatesFor]

theorem updatesFor_flatten (id : Bytes) (ls : List (List Record)) :
    updatesFor id ls.flatten = (ls.map (updatesFor id)).flatten := by
  induction ls with
  | nil => simp [updatesFor]
  | cons l rest ih => simp [updatesFor_append, ih]

theorem referenceScan_three (a b c : Bytes) (h : isCaseId a = true) :
    referenceScan [a, b, c] 0 = [⟨a, b, c⟩] := by
  rw [referenceScan]
  simp only [List.length_cons, List.length_nil]
  rw [dif_pos (by decide)]
  simp only [List.getElem_cons_zero, h, if_true]
  rw [referenceScan]
  simp

/-- C4: when parse returns without an error, the entry of every caseId is the
concatenation, in segment-discovery order, of the (status, date) pairs of the
records each segment's record assembly emits for that caseId, each segment's
records in scan order (the key is absent exactly when there is none). With two
segments that emit one record each for the same caseId the entry holds both, the
first segment's first. -/
theorem C4_merge_in_discovery_order (g : Vars) (unzip : Bytes → Except ZlibError Bytes)
    (pdf : Bytes) (table : BatchTable) (h : parse g unzip pdf = some (table, none)) :
    (∀ id : Bytes,
        (tableGet table id).getD []
            = ((segments pdf).map
                (fun sect => updatesFor id (segmentRecords g unzip sect))).flatten
        ∧ (tableGet table id = none ↔
            ((segments pdf).map
                (fun sect => updatesFor id (segmentRecords g unzip sect))).flatten = []))
    ∧ (∀ (s1 s2 : Bytes) (r1 r2 : Record), segments pdf = [s1, s2] →
        segmentRecords g unzip s1 = [r1] → segmentRecords g unzip s2 = [r2] →
        r1.caseId = r2.caseId →
          tableGet table r1.caseId = some [⟨r1.status, r1.date⟩, ⟨r2.status, r2.date⟩]) := by
  rw [parse_eq_mergeSegments] at h
  have ht := mergeSegments_table g unzip _ _ _ _ _ h
  have he := mergeSegments_ok g unzip _ _ _ _ h
  have key : ∀ id : Bytes,
      (tableGet table id).getD []
          = ((segments pdf).map
              (fun sect => updatesFor id (segmentRecords g unzip sect))).flatten
      ∧ (tableGet table id = none ↔
          ((segments pdf).map
              (fun sect => updatesFor id (segmentRecords g unzip sect))).flatten = []) := by
    intro id
    obtain ⟨h1, h2⟩ := tableGet_foldl_mergeRecord (emitted g unzip (segments pdf)) [] id
    rw [← ht, he, updatesFor_flatten, List.map_map] at h1 h2
    constructor
    · simpa [tableGet] using h1
    · simpa [tableGet] using h2
  refine ⟨key, ?_⟩
  intro s1 s2 r1 r2 hs h1 h2 hk
  obtain ⟨k1, k2⟩ := key r1.caseId
  rw [hs] at k1 k2
  simp only [List.map_cons, List.map_nil, h1, h2] at k1 k2
  have hu : updatesFor r1.caseId [r1] = [⟨r1.status, r1.date⟩] := by simp [updatesFor]
  have hv : updatesFor r1.caseId [r2] = [⟨r2.status, r2.date⟩] := by simp [updatesFor, hk]
  rw [hu, hv] at k1 k2
  cases hg : tableGet table r1.caseId with
  | none =>
    rw [hg] at k1
    simp at k1
  | some v =>
    rw [hg] at k1
    simp at k1
    rw [k1]

set_option maxRecDepth 1000000 in
theorem C4_merge_in_discovery_order_witness :
    parse specVars storedUnzip twoSegmentPdf
        = some ([("20000000001".toList,
            [⟨"Approved".toList, "2023-01-05".toList⟩,
             ⟨"Issued".toList, "2023-02-07".toList⟩])], none)
    ∧ tableGet [("20000000001".toList,
            [⟨"Approved".toList, "2023-01-05".toList⟩,
             ⟨"Issued".toList, "2023-02-07".toList⟩])] "20000000001".toList
        = some [⟨"Approved".toList, "2023-01-05".toList⟩,
                ⟨"Issued".toList, "2023-02-07".toList⟩] := by
  have hp : parse specVars storedUnzip twoSegmentPdf
      = some ([("20000000001".toList,
            [⟨"Approved".toList, "2023-01-05".toList⟩,
             ⟨"Issued".toList, "2023-02-07".toList⟩])], none) := by decide
  refine ⟨hp, ?_⟩
  have hc : isCaseId "20000000001".toList = true := by decide
  exact (C4_merge_in_discovery_order specVars storedUnzip twoSegmentPdf _ hp).2
    ("BT\x0D\x0A(20000000001)ET\x0D\x0ABT\x0D\x0A(Approved)ET\x0D\x0ABT\x0D\x0A(2023-01-05)ET\x0D\x0Aend".toList)
    ("BT\x0D\x0A(20000000001)ET\x0D\x0ABT\x0D\x0A(Issued)ET\x0D\x0ABT\x0D\x0A(2023-02-07)ET\x0D\x0Aend".toList)
    ⟨"20000000001".toList, "Approved".toList, "2023-01-05".toList⟩
    ⟨"20000000001".toList, "Issued".toList, "2023-02-07".toList⟩
    (by decide)
    (by
      have ht : textRecords specVars
          "BT\x0D\x0A(20000000001)ET\x0D\x0ABT\x0D\x0A(Approved)ET\x0D\x0ABT\x0D\x0A(2023-01-05)ET\x0D\x0Aend".toList
          = ["20000000001".toList, "Approved".toList, "2023-01-05".toList] := by decide
      simp only [segmentRecords, storedUnzip, ht]
      exact referenceScan_three _ _ _ hc)
    (by
      have ht : textRecords specVars
          "BT\x0D\x0A(20000000001)ET\x0D\x0ABT\x0D\x0A(Issued)ET\x0D\x0ABT\x0D\x0A(2023-02-07)ET\x0D\x0Aend".toList
          = ["20000000001".toList, "Issued".toList, "2023-02-07".toList] := by decide
      simp only [segmentRecords, storedUnzip, ht]
      exact referenceScan_three _ _ _ hc)
    rfl

theorem emitted_isCaseId (g : Vars) (unzip : Bytes → Except ZlibError Bytes) :
    ∀ (segs : List Bytes), ∀ r ∈ emitted g unzip segs, isCaseId r.caseId = true := by
  intro segs
  induction segs with
  | nil => intro r hr; simp [emitted] at hr
  | cons sect rest ih =>
    intro r hr
    simp only [emitted] at hr
    cases hu : unzip sect with
    | error z => rw [hu] at hr; simp at hr
    | ok unzipped =>
      rw [hu] at hr
      simp only [List.mem_append] at hr
      rcases hr with hr | hr
      · exact referenceScan_isCaseId _ _ 0 (Nat.le_refl _) r hr
      · exact ih r hr

theorem updatesFor_eq_nil (id : Bytes) (rs : List Record) :
    updatesFor id rs = [] ↔ ∀ r ∈ rs, r.caseId ≠ id := by
  induction rs with
  | nil => simp [updatesFor]
  | cons r rest ih =>
    by_cases hk : r.caseId = id
    · simp [updatesFor, hk]
    · simp only [updatesFor, List.filter_cons, hk, decide_False, Bool.false_eq_true, if_false,
        List.mem_cons, forall_eq_or_imp, ne_eq, not_false_eq_true, true_and]
      exact ih

/-- C9: whatever parse returns, with or without an error, every key of the table
parses as a base-10 integer `v` with `20000000000 <= v < 29000000000` and the
sequence under every key is non-empty; a lookup finds a caseId absent exactly when
no record was emitted for it. -/
theorem C9_keys_are_caseIds (g : Vars) (unzip : Bytes → Except ZlibError Bytes)
    (pdf : Bytes) (table : BatchTable) (e : Option Error)
    (h : parse g unzip pdf = some (table, e)) :
    (∀ p ∈ table,
        (∃ v : Int, ParseInt p.1 = some v ∧ 20000000000 ≤ v ∧ v < 29000000000) ∧ p.2 ≠ [])
    ∧ (∀ id : Bytes, tableGet table id = none ↔
        ∀ r ∈ emitted g unzip (segments pdf), r.caseId ≠ id) := by
  rw [parse_eq_mergeSegments] at h
  have ht := mergeSegments_table g unzip _ _ _ _ _ h
  constructor
  · intro p hp
    rw [ht] at hp
    rcases mem_foldl_mergeRecord _ _ _ hp with h0 | ⟨⟨r, hr, hk⟩, hne⟩
    · cases h0
    · refine ⟨?_, hne⟩
      rw [← hk]
      exact (isCaseId_iff _).mp (emitted_isCaseId g unzip _ r hr)
  · intro id
    rw [ht, (tableGet_foldl_mergeRecord _ [] id).2, updatesFor_eq_nil]
    simp [tableGet]

set_option maxRecDepth 1000000 in
theorem C9_keys_are_caseIds_witness :
    parse specVars pickyUnzip brokenSecondPdf
        = some ([("20000000001".toList, [⟨"Approved".toList, "2023-01-05".toList⟩])],
            some .UnzipInitializationFailed)
    ∧ (∀ p ∈ [("20000000001".toList, [(⟨"Approved".toList, "2023-01-05".toList⟩ : BatchUpdate)])],
        (∃ v : Int, ParseInt p.1 = some v ∧ 20000000000 ≤ v ∧ v < 29000000000) ∧ p.2 ≠ [])
    ∧ (∀ id : Bytes,
        tableGet [("20000000001".toList, [⟨"Approved".toList, "2023-01-05".toList⟩])] id = none ↔
          ∀ r ∈ emitted specVars pickyUnzip (segments brokenSecondPdf), r.caseId ≠ id) := by
  have hp : parse specVars pickyUnzip brokenSecondPdf
      = some ([("20000000001".toList, [⟨"Approved".toList, "2023-01-05".toList⟩])],
          some .UnzipInitializationFailed) := by decide
  exact ⟨hp, C9_keys_are_caseIds specVars pickyUnzip brokenSecondPdf _ _ hp⟩

/-! ## The claims about the segment scan -/

/-- The model of `bytes.Index` returns the first position at which `sep` occurs. -/
theorem Index_spec (sep : Bytes) :
    ∀ (s : Bytes) (k : Nat), Index s sep = some k ↔
      (sep <+: s.drop k ∧ k ≤ s.length ∧ ∀ j < k, ¬ sep <+: s.drop j) := by
  intro s
  induction s with
  | nil =>
    intro k
    by_cases hp : sep = []
    · subst hp
      cases k <;> simp [Index]
    · have : sep.isPrefixOf [] = false := by
        cases sep with
        | nil => exact absurd rfl hp
        | cons a l => rfl
      simp [Index, this, hp]
  | cons c s ih =>
    intro k
    by_cases hp : sep.isPrefixOf (c :: s) = true
    · have hpre : sep <+: c :: s := List.isPrefixOf_iff_prefix.mp hp
      simp only [Index, hp, if_true, Option.some.injEq]
      constructor
      · intro h0
        subst h0
        exact ⟨by simpa using hpre, by simp, by intro j hj; omega⟩
      · rintro ⟨_, _, h3⟩
        rcases Nat.eq_zero_or_pos k with h0 | h0
        · exact h0.symm
        · exact absurd (by simpa using hpre) (h3 0 h0)
    · have hnpre : ¬ sep <+: c :: s := fun h => hp (List.isPrefixOf_iff_prefix.mpr h)
      simp only [Index, hp, Bool.false_eq_true, if_false]
      cases k with
      | zero =>
        cases hi : Index s sep with
        | none => simp [hnpre]
        | some k2 => simp [hnpre]
      | succ k =>
        have key := ih k
        cases hi : Index s sep with
        | none =>
          rw [hi] at key
          have hk : ¬ (sep <+: s.drop k ∧ k ≤ s.length ∧ ∀ j < k, ¬ sep <+: s.drop j) :=
            fun h => by cases key.mpr h
          constructor
          · intro h; cases h
          · rintro ⟨h1, h2, h3⟩
            refine absurd ⟨by simpa using h1, by simpa using h2, ?_⟩ hk
            intro j hj
            simpa using h3 (j + 1) (by omega)
        | some k2 =>
          rw [hi] at key
          constructor
          · intro hk
            have hk2 : k2 = k := by simpa using hk
            obtain ⟨h1, h2, h3⟩ := key.mp (by rw [hk2])
            refine ⟨by simpa using h1, by simpa using h2, ?_⟩
            intro j hj
            cases j with
            | zero => simpa using hnpre
            | succ j => simpa using h3 j (by omega)
          · rintro ⟨h1, h2, h3⟩
            have := key.mpr ⟨by simpa using h1, by simpa using h2,
              fun j hj => by simpa using h3 (j + 1) (by omega)⟩
            simpa using this

theorem StreamEndMarker_eq : StreamEndMarker = "end".toList ++ StreamStartMarker := by decide

theorem scanStep_of_index (pdf : Bytes) (beginIdx endIdx : Nat)
    (h1 : Index pdf StreamStartMarker = some beginIdx)
    (hb : beginIdx + 8 ≤ pdf.length)
    (h2 : Index (pdf.drop (beginIdx + 8)) StreamStartMarker = some endIdx)
    (he : endIdx + 11 ≤ (pdf.drop (beginIdx + 8)).length) :
    scanStep pdf = .segment ((pdf.drop (beginIdx + 8)).take endIdx)
      ((pdf.drop (beginIdx + 8)).drop (endIdx + 11)) := by
  have hS : StreamStartMarker.length = 8 := by decide
  have hE : StreamEndMarker.length = 11 := by decide
  have he2 : endIdx ≤ (pdf.drop (beginIdx + 8)).length := by omega
  unfold scanStep
  simp only [h1, hS, hE, sliceFrom, sliceTo, hb, if_true, h2, he, he2]

/-- C10: in a document `pre ++ "stream\r\n" ++ data ++ "endstream\r\n" ++ rest` whose
first start marker is the one after `pre`, whose next start marker is the one
inside the end marker, and whose `rest` has at least 3 bytes, the first segment
parse hands to the inflater is `data ++ "end"`, and the scan goes on from `rest`
without its first 3 bytes. -/
theorem C10_segment_keeps_end (pre data rest : Bytes)
    (h1 : Index (pre ++ (StreamStartMarker ++ (data ++ (StreamEndMarker ++ rest))))
            StreamStartMarker = some pre.length)
    (h2 : Index (data ++ (StreamEndMarker ++ rest)) StreamStartMarker
            = some (data.length + 3))
    (h3 : 3 ≤ rest.length) :
    scanStep (pre ++ (StreamStartMarker ++ (data ++ (StreamEndMarker ++ rest))))
        = .segment (data ++ "end".toList) (rest.drop 3)
    ∧ (∀ (g : Vars) (unzip : Bytes → Except ZlibError Bytes),
        parse g unzip (pre ++ (StreamStartMarker ++ (data ++ (StreamEndMarker ++ rest))))
          = match unzip (data ++ "end".toList) with
            | .error .NewReader => some ([], some .UnzipInitializationFailed)
            | .error .ReadAll => some ([], some .UnzipFailed)
            | .ok unzipped =>
              match assemble (textRecords g unzipped) [] with
              | none => none
              | some table2 => parseLoop g unzip (rest.drop 3).length (rest.drop 3) table2) := by
  have hS : StreamStartMarker.length = 8 := by decide
  have hE : StreamEndMarker.length = 11 := by decide
  have hd : (pre ++ (StreamStartMarker ++ (data ++ (StreamEndMarker ++ rest)))).drop
      (pre.length + 8) = data ++ (StreamEndMarker ++ rest) := by
    rw [← List.append_assoc]
    exact List.drop_left' (by simp [hS])
  have hstep : scanStep (pre ++ (StreamStartMarker ++ (data ++ (StreamEndMarker ++ rest))))
      = .segment (data ++ "end".toList) (rest.drop 3) := by
    rw [scanStep_of_index _ pre.length (data.length + 3) h1 (by simp [hS]) (by rw [hd]; exact h2)
      (by rw [hd]; simp [hE]; omega)]
    rw [hd]
    congr 1
    · rw [StreamEndMarker_eq, List.append_assoc, ← List.append_assoc data]
      exact List.take_left' (by simp)
    · rw [← List.append_assoc, show data.length + 3 + 11 = (data.length + 11) + 3 by omega,
        ← List.drop_drop]
      congr 1
      exact List.drop_left' (by simp [hE])
  refine ⟨hstep, ?_⟩
  intro g unzip
  obtain ⟨n, hlen, hn⟩ : ∃ n,
      (pre ++ (StreamStartMarker ++ (data ++ (StreamEndMarker ++ rest)))).length = n + 1
        ∧ (rest.drop 3).length ≤ n := by
    refine ⟨pre.length + data.length + rest.length + 18, ?_, ?_⟩
    · simp [hS, hE]; omega
    · rw [List.length_drop]; omega
  unfold parse
  rw [hlen, parseLoop_succ, hstep]
  simp only
  cases unzip (data ++ "end".toList) with
  | error z => cases z <;> rfl
  | ok unzipped =>
    simp only
    cases assemble (textRecords g unzipped) [] with
    | none => rfl
    | some table2 =>
      simp only
      exact parseLoop_fuel g unzip _ _ _ _ hn (Nat.le_refl _)

theorem C10_segment_keeps_end_witness :
    scanStep ("%PDF".toList ++ (StreamStartMarker ++ ("x".toList ++ (StreamEndMarker ++ "endobj".toList))))
      = .segment ("x".toList ++ "end".toList) ("endobj".toList.drop 3) :=
  (C10_segment_keeps_end "%PDF".toList "x".toList "endobj".toList
    (by decide) (by decide) (by decide)).1

/-- C7 (the code departs from it): on a document that ends right after an end marker
the second cut `pdf[end+len(StreamEndMarker):]` is out of range, so the scan of
parse panics. A document in which a marker search fails at once (no segment) gives
the empty table without an error. -/
theorem C7_scan_slice_out_of_range :
    scanStep "stream\x0D\x0Axendstream\x0D\x0A".toList = .panic
    ∧ (∀ (g : Vars) (unzip : Bytes → Except ZlibError Bytes),
        parse g unzip "stream\x0D\x0Axendstream\x0D\x0A".toList = none)
    ∧ (∀ (g : Vars) (unzip : Bytes → Except ZlibError Bytes) (pdf : Bytes),
        scanStep pdf = .stop → parse g unzip pdf = some ([], none)) := by
  have hs : scanStep "stream\x0D\x0Axendstream\x0D\x0A".toList = .panic := by decide
  refine ⟨hs, ?_, ?_⟩
  · intro g unzip
    have hl : "stream\x0D\x0Axendstream\x0D\x0A".toList.length = 19 + 1 := by decide
    unfold parse
    rw [hl, parseLoop_succ, hs]
  · intro g unzip pdf h
    unfold parse
    cases hl : pdf.length with
    | zero => rfl
    | succ n => rw [parseLoop_succ, h]

/-! ## The claims about the token sequence -/

theorem lazyPlus_length (dotNL : Bool) (close : Bytes) :
    ∀ (s x rest : Bytes), lazyPlus dotNL close s = some (x, rest) → rest.length < s.length := by
  intro s
  induction s with
  | nil => intro x rest h; simp [lazyPlus] at h
  | cons c s ih =>
    intro x rest h
    simp only [lazyPlus] at h
    split at h
    · split at h
      · cases h
        simp only [List.length_drop, List.length_cons]
        omega
      · cases hr : lazyPlus dotNL close s with
        | none => rw [hr] at h; cases h
        | some p =>
          obtain ⟨x2, rest2⟩ := p
          rw [hr] at h
          cases h
          have := ih x2 rest hr
          simp only [List.length_cons]
          omega
    · cases h

theorem matchAt_length (re : LazyRE) (s m rest : Bytes) (h : matchAt re s = some (m, rest)) :
    rest.length < s.length := by
  unfold matchAt at h
  split at h
  · cases hr : lazyPlus re.dotNL (re.inner ++ re.post) (s.drop re.pre.length) with
    | none => rw [hr] at h; cases h
    | some p =>
      obtain ⟨x, rest2⟩ := p
      rw [hr] at h
      cases h
      have := lazyPlus_length _ _ _ _ _ hr
      simp only [List.length_drop] at this
      omega
  · cases h

/-- Any fuel that is at least the length of the input gives the same matches. -/
theorem findAll_fuel (re : LazyRE) :
    ∀ (n m : Nat) (s : Bytes), s.length ≤ n → s.length ≤ m →
      findAll re n s = findAll re m s := by
  intro n
  induction n with
  | zero =>
    intro m s hn hm
    have : s = [] := List.length_eq_zero.mp (by omega)
    subst this
    cases m <;> rfl
  | succ n ih =>
    intro m s hn hm
    cases s with
    | nil => cases m <;> rfl
    | cons c s =>
      cases m with
      | zero => simp at hm
      | succ m =>
        simp only [findAll]
        simp only [List.length_cons] at hn hm
        cases hr : matchAt re (c :: s) with
        | none => exact ih m s (by omega) (by omega)
        | some p =>
          obtain ⟨x, rest⟩ := p
          simp only
          have hl := matchAt_length re _ _ _ hr
          simp only [List.length_cons] at hl
          rw [ih m rest (by omega) (by omega)]

/-- The matches of an input, read off its first byte: a match that starts there is
taken and the search goes on behind it, otherwise the search moves one byte on. -/
theorem FindAllSubmatch_cons (re : LazyRE) (c : Char) (s : Bytes) :
    FindAllSubmatch re (c :: s)
      = match matchAt re (c :: s) with
        | some (m, rest) => m :: FindAllSubmatch re rest
        | none => FindAllSubmatch re s := by
  unfold FindAllSubmatch
  simp only [List.length_cons, findAll]
  cases hr : matchAt re (c :: s) with
  | none => rfl
  | some p =>
    obtain ⟨x, rest⟩ := p
    simp only
    have hl := matchAt_length re _ _ _ hr
    simp only [List.length_cons] at hl
    rw [findAll_fuel re s.length rest.length rest (by omega) (Nat.le_refl _)]

theorem foldl_append_singleton {α β : Type} (f : α → β) (l : List α) :
    ∀ acc : List β, l.foldl (fun r m => r ++ [f m]) acc = acc ++ l.map f := by
  induction l with
  | nil => intro acc; simp
  | cons a l ih => intro acc; simp [ih]

theorem textRecords_eq_map (g : Vars) (unzipped : Bytes) :
    textRecords g unzipped
      = (FindAllSubmatch g.BTETRE unzipped).map
          (fun block => (FindAllSubmatch g.TextRE block).flatten) := by
  unfold textRecords
  rw [foldl_append_singleton (joinedLines g)]
  simp only [List.nil_append]
  apply List.map_congr_left
  intro block _
  unfold joinedLines
  rw [foldl_append_singleton (fun m => m)]
  simp

set_option maxRecDepth 1000000 in
/-- Line 102 joins what a text block holds: with the expressions of the specification
a block with the three literals `(20000000001)(Approved)(2023-01-05)` gives the
single token `20000000001Approved2023-01-05`, and a block without a literal gives
one empty token. -/
theorem textRecords_specVars_joins :
    textRecords specVars "BT\x0D\x0A(20000000001)(Approved)(2023-01-05)ET\x0D\x0A".toList
        = ["20000000001Approved2023-01-05".toList]
    ∧ textRecords specVars "BT\x0D\x0A1 0 0 1 72 720 Tm\x0D\x0AET\x0D\x0A".toList = [[]] := by
  refine ⟨by decide, by decide⟩

/-! ## The claims about the cache -/

theorem RefreshTable_gets (g : Vars) (lib : Lib) (w : World) (r : Table × World)
    (h : RefreshTable g lib w = some r) : r.2.gets = w.gets + 1 := by
  unfold RefreshTable LoadBatchTable at h
  cases hr : w.responses w.gets with
  | getFailed =>
    simp only [hr] at h
    cases h
    simp only [StoreTable]
    split <;> rfl
  | readFailed =>
    simp only [hr] at h
    cases h
    simp only [StoreTable]
    split <;> rfl
  | contents body =>
    simp only [hr] at h
    cases hp : parse g lib.unzip body with
    | none => simp [hp] at h
    | some p =>
      simp only [hp] at h
      cases h
      simp only [StoreTable]
      split <;> rfl

/-- C5 (amended): when the pipeline of a refresh fails (the fetch fails or a segment
does not inflate), RefreshTable discards the error and stores a new snapshot, the
prior one being kept only when the memcache write itself fails: its updateTime is
the time of the refresh and its BatchTable is what the pipeline returned with the
error, empty after a failed fetch, and after a failed segment the table built
from the records of the segments before it. -/
theorem C5_failed_refresh_is_stored (g : Vars) (lib : Lib) (w w1 : World)
    (batches : BatchTable) (err : Error)
    (h : LoadBatchTable g lib w = some ((batches, some err), w1)) :
    (RefreshTable g lib w).map (fun r => (r.1, r.2.item))
        = some (⟨lib.timeFormat (w.clock w.ticks), batches⟩,
            if w.setFails then w.item
            else some ⟨lib.timeFormat (w.clock w.ticks), batches⟩)
    ∧ ((w.responses w.gets = .getFailed ∨ w.responses w.gets = .readFailed) → batches = [])
    ∧ (∀ body : Bytes, w.responses w.gets = .contents body →
        batches = (emitted g lib.unzip (segments body)).foldl mergeRecord []) := by
  have hw1 : w1 = { w with gets := w.gets + 1 } := by
    unfold LoadBatchTable at h
    cases hr : w.responses w.gets with
    | getFailed => simp only [hr] at h; cases h; rfl
    | readFailed => simp only [hr] at h; cases h; rfl
    | contents body =>
      simp only [hr] at h
      cases hp : parse g lib.unzip body with
      | none => simp [hp] at h
      | some p => simp only [hp] at h; cases h; rfl
  subst hw1
  refine ⟨?_, ?_, ?_⟩
  · unfold RefreshTable
    rw [h]
    simp only [Option.map_some', StoreTable]
    cases w.setFails <;> simp
  · intro hf
    unfold LoadBatchTable at h
    rcases hf with hf | hf <;> simp only [hf] at h <;> cases h <;> rfl
  · intro body hb
    unfold LoadBatchTable at h
    simp only [hb] at h
    cases hp : parse g lib.unzip body with
    | none => simp [hp] at h
    | some p =>
      simp only [hp] at h
      cases h
      rw [parse_eq_mergeSegments] at hp
      exact mergeSegments_table g lib.unzip _ _ _ _ _ hp

set_option maxRecDepth 1000000 in
theorem C5_failed_refresh_is_stored_witness :
    LoadBatchTable specVars demoLib (demoWorld 0 (.contents brokenSecondPdf))
        = some (([("20000000001".toList, [⟨"Approved".toList, "2023-01-05".toList⟩])],
            some .UnzipInitializationFailed),
            { demoWorld 0 (.contents brokenSecondPdf) with gets := 1 })
    ∧ (RefreshTable specVars demoLib (demoWorld 0 (.contents brokenSecondPdf))).map
          (fun r => (r.1, r.2.item))
        = some (⟨demoLib.timeFormat 1700000000000000000,
              [("20000000001".toList, [⟨"Approved".toList, "2023-01-05".toList⟩])]⟩,
            some ⟨demoLib.timeFormat 1700000000000000000,
              [("20000000001".toList, [⟨"Approved".toList, "2023-01-05".toList⟩])]⟩) := by
  have hp : parse specVars pickyUnzip brokenSecondPdf
      = some ([("20000000001".toList, [⟨"Approved".toList, "2023-01-05".toList⟩])],
          some .UnzipInitializationFailed) := by decide
  have hl : LoadBatchTable specVars demoLib (demoWorld 0 (.contents brokenSecondPdf))
      = some (([("20000000001".toList, [⟨"Approved".toList, "2023-01-05".toList⟩])],
          some .UnzipInitializationFailed),
          { demoWorld 0 (.contents brokenSecondPdf) with gets := 1 }) := by
    simp only [LoadBatchTable, demoWorld, demoLib, hp]
  exact ⟨hl, (C5_failed_refresh_is_stored specVars demoLib _ _ _ _ hl).1⟩

/-- C5 as stated fails: the cache holds `demoSnapshot` (one entry), the GET of the
refresh fails, and after RefreshTable the cache holds a snapshot with an empty
table, not the prior one. -/
theorem C5_failed_refresh_counterexample :
    (demoWorld 5400 .getFailed).item = some demoSnapshot
    ∧ (RefreshTable vars demoLib (demoWorld 5400 .getFailed)).map (fun r => r.2.item)
        = some (some ⟨demoLib.timeFormat 1700005400000000000, []⟩)
    ∧ (RefreshTable vars demoLib (demoWorld 5400 .getFailed)).map (fun r => r.2.item)
        ≠ some (demoWorld 5400 .getFailed).item := by
  have h : (RefreshTable vars demoLib (demoWorld 5400 .getFailed)).map (fun r => r.2.item)
      = some (some ⟨demoLib.timeFormat 1700005400000000000, []⟩) := rfl
  refine ⟨rfl, h, ?_⟩
  rw [h]
  intro hc
  have hb := congrArg (fun o : Option (Option Table) => o.map (fun i => i.map Table.Batches)) hc
  simp [demoWorld, demoSnapshot] at hb

theorem GetBatch_of_hit (g : Vars) (lib : Lib) (w : World) (snap : Table) (t : Int)
    (id : Bytes) (hitem : w.item = some snap) (hget : w.getFails = false)
    (htime : lib.timeParse snap.UpdateTime = some t) :
    GetBatch g lib w id
      = if t + gap < w.clock w.ticks then
          match RefreshTable g lib { w with ticks := w.ticks + 1 } with
          | none => none
          | some (table2, w3) => some (tableGet table2.Batches id, w3)
        else some (tableGet snap.Batches id, { w with ticks := w.ticks + 1 }) := by
  simp [GetBatch, ReadTable, hitem, hget, htime]

/-- C6: with a snapshot in the cache whose updateTime parses to the instant `t`, and
`now` the clock reading of the lookup, GetBatch refreshes exactly when
`now - t > 1 hour`: if so the lookup is answered from the table RefreshTable
returns (one more GET has been made), if not it is answered from the snapshot and
no GET is made. 30 minutes and exactly 1 hour are served from the snapshot,
90 minutes refreshes. -/
theorem C6_refresh_iff_older_than_one_hour (g : Vars) (lib : Lib) (w : World) (snap : Table)
    (t : Int) (id : Bytes) (hitem : w.item = some snap) (hget : w.getFails = false)
    (htime : lib.timeParse snap.UpdateTime = some t) :
    (w.clock w.ticks - t > 3600 * 1000000000 →
        GetBatch g lib w id
          = (RefreshTable g lib { w with ticks := w.ticks + 1 }).map
              (fun r => (tableGet r.1.Batches id, r.2)))
    ∧ (¬ (w.clock w.ticks - t > 3600 * 1000000000) →
        GetBatch g lib w id = some (tableGet snap.Batches id, { w with ticks := w.ticks + 1 }))
    ∧ (∀ r, GetBatch g lib w id = some r →
        (r.2.gets = w.gets + 1 ↔ w.clock w.ticks - t > 3600 * 1000000000)
        ∧ (r.2.gets = w.gets ↔ ¬ (w.clock w.ticks - t > 3600 * 1000000000)))
    ∧ (w.clock w.ticks = t + 30 * 60 * 1000000000 →
        GetBatch g lib w id = some (tableGet snap.Batches id, { w with ticks := w.ticks + 1 }))
    ∧ (w.clock w.ticks = t + 60 * 60 * 1000000000 →
        GetBatch g lib w id = some (tableGet snap.Batches id, { w with ticks := w.ticks + 1 }))
    ∧ (w.clock w.ticks = t + 90 * 60 * 1000000000 →
        GetBatch g lib w id
          = (RefreshTable g lib { w with ticks := w.ticks + 1 }).map
              (fun r => (tableGet r.1.Batches id, r.2))) := by
  have hG := GetBatch_of_hit g lib w snap t id hitem hget htime
  have hgap : gap = 3600 * 1000000000 := rfl
  have stale : w.clock w.ticks - t > 3600 * 1000000000 →
      GetBatch g lib w id
        = (RefreshTable g lib { w with ticks := w.ticks + 1 }).map
            (fun r => (tableGet r.1.Batches id, r.2)) := by
    intro hs
    have hlt : t + gap < w.clock w.ticks := by rw [hgap]; omega
    rw [hG, if_pos hlt]
    cases RefreshTable g lib { w with ticks := w.ticks + 1 } with
    | none => rfl
    | some r => rfl
  have fresh : ¬ (w.clock w.ticks - t > 3600 * 1000000000) →
      GetBatch g lib w id
        = some (tableGet snap.Batches id, { w with ticks := w.ticks + 1 }) := by
    intro hs
    have hlt : ¬ (t + gap < w.clock w.ticks) := by rw [hgap]; omega
    rw [hG, if_neg hlt]
  refine ⟨stale, fresh, ?_, ?_, ?_, ?_⟩
  · intro r hr
    by_cases hs : w.clock w.ticks - t > 3600 * 1000000000
    · rw [stale hs] at hr
      cases hq : RefreshTable g lib { w with ticks := w.ticks + 1 } with
      | none => rw [hq] at hr; cases hr
      | some q =>
        rw [hq] at hr
        cases hr
        have hgets := RefreshTable_gets g lib _ q hq
        simp only at hgets ⊢
        constructor
        · exact ⟨fun _ => hs, fun _ => hgets⟩
        · constructor
          · intro h; omega
          · intro h; exact absurd hs h
    · rw [fresh hs] at hr
      cases hr
      simp only
      constructor
      · constructor
        · intro h; omega
        · intro h; exact absurd h hs
      · exact ⟨fun _ => hs, fun _ => trivial⟩
  · intro hnow
    exact fresh (by rw [hnow]; omega)
  · intro hnow
    exact fresh (by rw [hnow]; omega)
  · intro hnow
    exact stale (by rw [hnow]; omega)

theorem C6_refresh_iff_older_than_one_hour_witness :
    (GetBatch vars demoLib (demoWorld 5400 .getFailed) "20000000001".toList
        = (RefreshTable vars demoLib
            { demoWorld 5400 .getFailed with ticks := 1 }).map
            (fun r => (tableGet r.1.Batches "20000000001".toList, r.2)))
    ∧ (GetBatch vars demoLib (demoWorld 3600 .getFailed) "20000000001".toList
        = some (some [⟨"Approved".toList, "2023-01-05".toList⟩],
            { demoWorld 3600 .getFailed with ticks := 1 })) :=
  ⟨(C6_refresh_iff_older_than_one_hour vars demoLib (demoWorld 5400 .getFailed) demoSnapshot
      1700000000000000000 "20000000001".toList rfl rfl (by decide)).1 (by decide),
   (C6_refresh_iff_older_than_one_hour vars demoLib (demoWorld 3600 .getFailed) demoSnapshot
      1700000000000000000 "20000000001".toList rfl rfl (by decide)).2.1 (by decide)⟩

/-! ## The expressions as the program writes them -/

theorem parseDigits_all_digits :
    ∀ (s : Bytes) (acc n : Nat), parseDigits s acc = some n →
      ∀ c ∈ s, digitVal c ≠ none := by
  intro s
  induction s with
  | nil => intro acc n _ c hc; cases hc
  | cons d s ih =>
    intro acc n h c hc
    simp only [parseDigits] at h
    cases hd : digitVal d with
    | none => rw [hd] at h; cases h
    | some v =>
      rw [hd] at h
      rcases List.mem_cons.mp hc with hc | hc
      · subst hc; rw [hd]; simp
      · exact ih _ _ h c hc

theorem ParseUint_all_digits (s : Bytes) (n : Nat) (h : ParseUint s = some n) :
    s ≠ [] ∧ ∀ c ∈ s, digitVal c ≠ none := by
  cases s with
  | nil => simp [ParseUint] at h
  | cons d s =>
    refine ⟨by simp, ?_⟩
    simp only [ParseUint] at h
    cases hp : parseDigits (d :: s) 0 with
    | none => rw [hp] at h; cases h
    | some m => exact parseDigits_all_digits _ _ _ hp

/-- A token that `strconv.ParseInt` accepts ends with a decimal digit. -/
theorem ParseInt_last_digit (s : Bytes) (v : Int) (h : ParseInt s = some v) :
    ∃ c, s.getLast? = some c ∧ digitVal c ≠ none := by
  cases s with
  | nil => simp [ParseInt] at h
  | cons d s =>
    have key : ∀ n, ParseUint s = some n →
        ∃ c, (d :: s).getLast? = some c ∧ digitVal c ≠ none := by
      intro n hn
      obtain ⟨hne, hall⟩ := ParseUint_all_digits s n hn
      obtain ⟨c, hc⟩ : ∃ c, s.getLast? = some c := by
        cases hl : s.getLast? with
        | none => exact absurd (List.getLast?_eq_none_iff.mp hl) hne
        | some c => exact ⟨c, rfl⟩
      refine ⟨c, ?_, hall c (List.mem_of_getLast?_eq_some hc)⟩
      cases s with
      | nil => exact absurd rfl hne
      | cons e s => simpa [List.getLast?_cons_cons] using hc
    simp only [ParseInt] at h
    split at h
    · cases hn : ParseUint s with
      | none => rw [hn] at h; cases h
      | some n => exact key n hn
    · split at h
      · cases hn : ParseUint s with
        | none => rw [hn] at h; cases h
        | some n => exact key n hn
      · cases hn : ParseUint (d :: s) with
        | none => rw [hn] at h; cases h
        | some n =>
          obtain ⟨_, hall⟩ := ParseUint_all_digits _ n hn
          cases hl : (d :: s).getLast? with
          | none => simp at hl
          | some c => exact ⟨c, rfl, hall c (List.mem_of_getLast?_eq_some hl)⟩

theorem findAll_TextRE_last (n : Nat) :
    ∀ (s : Bytes), ∀ m ∈ findAll TextRE n s, m.getLast? = some '\\' := by
  induction n with
  | zero => intro s m hm; simp [findAll] at hm
  | succ n ih =>
    intro s m hm
    cases s with
    | nil => simp [findAll] at hm
    | cons c s =>
      simp only [findAll] at hm
      cases hr : matchAt TextRE (c :: s) with
      | none => rw [hr] at hm; exact ih s m hm
      | some p =>
        obtain ⟨x, rest⟩ := p
        rw [hr] at hm
        rcases List.mem_cons.mp hm with hm | hm
        · subst hm
          unfold matchAt at hr
          split at hr
          · cases hq : lazyPlus TextRE.dotNL (TextRE.inner ++ TextRE.post)
                (List.drop TextRE.pre.length (c :: s)) with
            | none => rw [hq] at hr; cases hr
            | some q =>
              rw [hq] at hr
              cases hr
              simp [TextRE]
          · cases hr
        · exact ih rest m hm

theorem flatten_last (ls : List Bytes) (h : ∀ m ∈ ls, m.getLast? = some '\\') :
    ls.flatten = [] ∨ ls.flatten.getLast? = some '\\' := by
  induction ls with
  | nil => left; rfl
  | cons m rest ih =>
    have hm := h m (List.mem_cons_self _ _)
    rcases ih (fun x hx => h x (List.mem_cons_of_mem _ hx)) with hr | hr
    · right
      simp [hr, hm]
    · right
      simp only [List.flatten_cons]
      rw [List.getLast?_append, hr]
      rfl

/-- With the two expressions as the program writes them, a token is empty or ends with
a backslash. -/
theorem textRecords_vars_last (unzipped : Bytes) :
    ∀ token ∈ textRecords vars unzipped, token = [] ∨ token.getLast? = some '\\' := by
  intro token ht
  rw [textRecords_eq_map vars unzipped] at ht
  obtain ⟨block, _, hb⟩ := List.mem_map.mp ht
  subst hb
  exact flatten_last (FindAllSubmatch vars.TextRE block)
    (fun m hm => findAll_TextRE_last _ _ m hm)

/-- With the two expressions as the program writes them, no token passes the caseId
test. -/
theorem textRecords_vars_not_caseId (unzipped : Bytes) :
    ∀ token ∈ textRecords vars unzipped, isCaseId token = false := by
  intro token ht
  have hl := textRecords_vars_last unzipped token ht
  cases hc : isCaseId token with
  | false => rfl
  | true =>
    exfalso
    obtain ⟨v, hv, _⟩ := (isCaseId_iff _).mp hc
    obtain ⟨c, hc1, hc2⟩ := ParseInt_last_digit _ v hv
    rcases hl with hl | hl
    · rw [hl] at hc1; cases hc1
    · rw [hl] at hc1
      cases hc1
      exact hc2 (by decide)

set_option maxRecDepth 1000000 in
/-- C8 (the code departs from it): the content stream with the one text block
`BT CR LF (20000000001) ET CR LF`, one parenthesized literal, should give the one
token `20000000001`; the program gives no token at all, because its two
expressions stand in raw string literals with doubled backslashes and so ask for
the characters backslash, `r`, backslash, `n` after `BT` and for backslashes around
a literal. The same lines of code with the expressions of the specification give
the claimed token. For every content stream a token of the program is empty or
ends with a backslash, so it is never the text between two parentheses. -/
theorem C8_literal_block_gives_no_token :
    textRecords vars "BT\x0D\x0A(20000000001)ET\x0D\x0A".toList = []
    ∧ textRecords specVars "BT\x0D\x0A(20000000001)ET\x0D\x0A".toList
        = ["20000000001".toList]
    ∧ FindAllSubmatch vars.BTETRE "BT\x0D\x0A(20000000001)ET\x0D\x0A".toList = []
    ∧ FindAllSubmatch vars.TextRE "(20000000001)".toList = []
    ∧ (∀ (unzipped : Bytes), ∀ token ∈ textRecords vars unzipped,
        token = [] ∨ token.getLast? = some '\\') := by
  refine ⟨by decide, by decide, by decide, by decide, textRecords_vars_last⟩

theorem referenceScan_no_caseId (tokens : List Bytes)
    (h : ∀ token ∈ tokens, isCaseId token = false) :
    ∀ (n i : Nat), tokens.length ≤ n + i → referenceScan tokens i = [] := by
  intro n
  induction n with
  | zero =>
    intro i hi
    rw [referenceScan]
    have : ¬ (i + 2 < tokens.length) := by omega
    simp [this]
  | succ n ih =>
    intro i hi
    rw [referenceScan]
    by_cases hlt : i + 2 < tokens.length
    · have hc : isCaseId tokens[i] = false := h _ (List.getElem_mem _)
      simp only [dif_pos hlt, hc, Bool.false_eq_true, if_false]
      exact ih (i + 1) (by omega)
    · simp [hlt]

/-- X1: with the two expressions as the program writes them, parse never adds a
record: the table it returns is empty for every document. -/
theorem parse_vars_table_empty (unzip : Bytes → Except ZlibError Bytes) (pdf : Bytes)
    (table : BatchTable) (e : Option Error) (h : parse vars unzip pdf = some (table, e)) :
    table = [] := by
  rw [parse_eq_mergeSegments] at h
  rw [mergeSegments_table vars unzip _ _ _ _ _ h]
  have hnil : ∀ segs : List Bytes, emitted vars unzip segs = [] := by
    intro segs
    induction segs with
    | nil => rfl
    | cons sect rest ih =>
      simp only [emitted]
      cases unzip sect with
      | error z => rfl
      | ok unzipped =>
        simp only [ih, List.append_nil]
        exact referenceScan_no_caseId _ (textRecords_vars_not_caseId unzipped) _ 0
          (Nat.le_refl _)
  rw [hnil]
  rfl

set_option maxRecDepth 1000000 in
theorem parse_vars_table_empty_witness :
    parse vars storedUnzip twoSegmentPdf = some ([], none)
    ∧ parse specVars storedUnzip twoSegmentPdf ≠ some ([], none) := by
  have h : parse vars storedUnzip twoSegmentPdf = some ([], none) := by decide
  have h2 := parse_vars_table_empty storedUnzip twoSegmentPdf [] none h
  exact ⟨h, by decide⟩

end Usvisa
